import Mathlib

/-!
Verification development for the HEIF-to-JPEG batch converter
(`hif2jpegUI.py`).  The pure core of the program -- path resolution,
per-file conversion, the batch harvest loop and the start/cancel control
surface -- is embedded shallowly; effectful library calls (image codec,
filesystem, clock) are supplied through explicit oracles so that every
code path of the source is a total Lean function.
-/

/- ------------------------------------------------------------------ -/
/- String and POSIX path helpers, modelling the `os.path` functions    -/
/- and the `str` methods the program uses.                             -/
/- ------------------------------------------------------------------ -/

/-- Characters of `s` split at `sep`, keeping empty pieces, as Python
`str.split(sep)` does. -/
def splitChar (sep : Char) (s : List Char) : List (List Char) :=
  s.foldr (fun c acc =>
    match acc with
    | cur :: rest => if c = sep then [] :: cur :: rest else (c :: cur) :: rest
    | [] => [[c]]) [[]]

/-- Python `s.startswith(pre)`. -/
def strStartsWith (s pre : String) : Bool := pre.data.isPrefixOf s.data

/-- Python `s.endswith(suf)`. -/
def strEndsWith (s suf : String) : Bool := suf.data.isSuffixOf s.data

/-- `os.path.isabs` for POSIX paths. -/
def isabs (p : String) : Bool := strStartsWith p "/"

/-- `os.path.dirname` for POSIX paths: everything up to the last slash,
with trailing slashes stripped unless the result is all slashes. -/
def dirname (p : String) : String :=
  let s := p.data
  let head := (s.reverse.dropWhile (fun c => c ≠ '/')).reverse
  if head.isEmpty then ""
  else if head.all (fun c => c = '/') then ⟨head⟩
  else ⟨(head.reverse.dropWhile (fun c => c = '/')).reverse⟩

/-- `os.path.basename` for POSIX paths. -/
def basename (p : String) : String :=
  ⟨(p.data.reverse.takeWhile (fun c => c ≠ '/')).reverse⟩

/-- `os.path.splitext`: split off the extension at the last dot of the
base name, unless every character of the base name before that dot is a
dot (so `.bashrc` has no extension). -/
def splitext (p : String) : String × String :=
  let s := p.data
  let dir := (s.reverse.dropWhile (fun c => c ≠ '/')).reverse
  let base := s.drop dir.length
  let afterDot := base.reverse.takeWhile (fun c => c ≠ '.')
  if afterDot.length = base.length then (p, "")
  else
    let stem := base.take (base.length - afterDot.length - 1)
    if stem.all (fun c => c = '.') then (p, "")
    else (⟨dir ++ stem⟩, ⟨'.' :: afterDot.reverse⟩)

/-- `os.path.join` for POSIX paths, two arguments. -/
def joinPath (a b : String) : String :=
  if isabs b then b
  else if a = "" || strEndsWith a "/" then a ++ b
  else a ++ "/" ++ b

/-- The components of `posixpath.abspath p`: the path is resolved
against `cwd` when relative, then normalised (empty components, `.` and
`..` are folded away, `..` at the root is dropped). -/
def absParts (cwd p : String) : List String :=
  let q := if isabs p then p else joinPath cwd p
  (((splitChar '/' q.data).map (fun l => (⟨l⟩ : String))).filter
      (fun c => (c != "") && (c != "."))).foldl
    (fun acc c => if c = ".." then acc.dropLast else acc ++ [c]) []

/-- Length of the component-wise common prefix of two component lists,
as `os.path.commonprefix` computes it for `relpath`. -/
def commonPrefixLen : List String → List String → Nat
  | a :: as, b :: bs => if a = b then commonPrefixLen as bs + 1 else 0
  | _, _ => 0

/-- Join path components with slashes. -/
def intercalateSlash : List String → String
  | [] => ""
  | [x] => x
  | x :: xs => x ++ "/" ++ intercalateSlash xs

/-- `os.path.relpath(path, start)` for POSIX paths: both arguments are
made absolute against `cwd`, the common component prefix is removed,
and the remainder of `start` becomes `..` steps. -/
def relpath (cwd path start : String) : String :=
  let pl := absParts cwd path
  let sl := absParts cwd start
  let i := commonPrefixLen sl pl
  let rel := List.replicate (sl.length - i) ".." ++ pl.drop i
  if rel.isEmpty then "." else intercalateSlash rel

/-- Worker for `strReplace`; the fuel argument is the length of the
scanned list, which bounds the recursion. -/
def replaceAllAux (pat rep : List Char) : Nat → List Char → List Char
  | _, [] => []
  | 0, s => s
  | fuel + 1, c :: rest =>
    if pat.isPrefixOf (c :: rest) && !pat.isEmpty then
      rep ++ replaceAllAux pat rep fuel ((c :: rest).drop pat.length)
    else c :: replaceAllAux pat rep fuel rest

/-- Python `s.replace(pat, rep)`: every non-overlapping occurrence is
replaced, scanning left to right, and replacements are not re-scanned.
An empty `pat` behaves as the identity here; the program only ever
substitutes the nonempty placeholders. -/
def strReplace (s pat rep : String) : String :=
  ⟨replaceAllAux pat.data rep.data s.data.length s.data⟩

/- ------------------------------------------------------------------ -/
/- Wall clock                                                          -/
/- ------------------------------------------------------------------ -/

/-- A wall-clock instant, as the fields `strftime` reads. -/
structure Timestamp where
  year : Nat
  month : Nat
  day : Nat
  hour : Nat
  minute : Nat
  second : Nat
deriving DecidableEq

/-- Left-pad the decimal digits of `n` with zeros to width `w`. -/
def padZero (w n : Nat) : String :=
  let s := Nat.repr n
  ⟨List.replicate (w - s.length) '0' ++ s.data⟩

/-- `datetime.now().strftime("%Y%m%d_%H%M%S")` at the instant `t`. -/
def formatTimestamp (t : Timestamp) : String :=
  padZero 4 t.year ++ padZero 2 t.month ++ padZero 2 t.day ++ "_" ++
    padZero 2 t.hour ++ padZero 2 t.minute ++ padZero 2 t.second

/- ------------------------------------------------------------------ -/
/- Images (the slice of the PIL interface the program touches)         -/
/- ------------------------------------------------------------------ -/

/-- The PIL colour modes the conversion code distinguishes: the two
alpha modes it names explicitly, and the alpha-free modes handled by
the `convert('RGB')` branch. -/
inductive Mode where
  | RGB | RGBA | LA | L
deriving DecidableEq

/-- Number of bands of a mode. -/
def Mode.bands : Mode → Nat
  | .RGB => 3 | .RGBA => 4 | .LA => 2 | .L => 1

/-- Index of the alpha band, when the mode has one. -/
def Mode.alphaIndex : Mode → Option Nat
  | .RGBA => some 3
  | .LA => some 1
  | _ => none

/-- A decoded image: mode, pixel dimensions, and per-pixel channel
values (each inner list has one value per band). -/
structure Image where
  mode : Mode
  size : Nat × Nat
  pixels : List (List Nat)
deriving DecidableEq

/-- `im.split()`: one single-band `L` image per band of `im`. -/
def Image.split (im : Image) : List Image :=
  (List.range im.mode.bands).map (fun i =>
    { mode := .L, size := im.size, pixels := im.pixels.map (fun p => [p.getD i 0]) })

/-- `Image.new('RGB', size, color)`. -/
def Image.newRGB (size : Nat × Nat) (color : Nat × Nat × Nat) : Image :=
  { mode := .RGB, size := size,
    pixels := List.replicate (size.1 * size.2) [color.1, color.2.1, color.2.2] }

/-- One channel of a masked paste: the source weighted by the mask
value, the background by its complement. -/
def blendChannel (b s m : Nat) : Nat := (s * m + b * (255 - m)) / 255

/-- Pointwise zip of three lists. -/
def zipWith3 {α β γ δ : Type} (f : α → β → γ → δ) : List α → List β → List γ → List δ
  | a :: as, b :: bs, c :: cs => f a b c :: zipWith3 f as bs cs
  | _, _, _ => []

/-- `background.paste(src, mask)` with a single-band mask: each
background channel is blended towards the corresponding source channel
by the mask value. -/
def Image.pasteMask (bg src mask : Image) : Image :=
  { mode := bg.mode, size := bg.size,
    pixels := zipWith3 (fun bp sp mp =>
      bp.zipWith (fun bc sc => blendChannel bc sc (mp.getD 0 0)) sp)
      bg.pixels src.pixels mask.pixels }

/-- `im.convert('RGB')` for the modelled modes: identity on RGB, drop
alpha on RGBA, replicate the grey channel otherwise. -/
def Image.convertRGB (im : Image) : Image :=
  match im.mode with
  | .RGB => im
  | .RGBA => { mode := .RGB, size := im.size, pixels := im.pixels.map (fun p => p.take 3) }
  | .L => { mode := .RGB, size := im.size,
            pixels := im.pixels.map (fun p => [p.getD 0 0, p.getD 0 0, p.getD 0 0]) }
  | .LA => { mode := .RGB, size := im.size,
             pixels := im.pixels.map (fun p => [p.getD 0 0, p.getD 0 0, p.getD 0 0]) }

/-- Whether the mode carries an alpha band. -/
def Image.hasAlphaChannel (im : Image) : Bool := im.mode.alphaIndex.isSome

/-- Whether some pixel is not fully opaque. -/
def Image.hasTransparentPixel (im : Image) : Bool :=
  match im.mode.alphaIndex with
  | some i => im.pixels.any (fun p => p.getD i 255 < 255)
  | none => false

/-- Whether every pixel is fully opaque (alpha-free modes are opaque). -/
def Image.isOpaque (im : Image) : Bool :=
  match im.mode.alphaIndex with
  | some i => im.pixels.all (fun p => p.getD i 255 = 255)
  | none => true

/- ------------------------------------------------------------------ -/
/- The conversion worker: ImageConverter.convert_image (lines 78-136)  -/
/- ------------------------------------------------------------------ -/

/-- EXIF data as tag/value pairs; Python truthiness is nonemptiness. -/
abbrev Exif := List (Nat × Nat)

/-- The tagged per-file outcome; the source returns the pair
`(True, jpeg_path)` on success and `(False, str(e))` on failure. -/
inductive ConversionOutcome where
  | Success (outputPath : String)
  | Failure (reason : String)
deriving DecidableEq

/-- Filesystem side effects a conversion performs, in order. -/
inductive FsAction where
  | makedirs (path : String)
  | save (path : String) (image : Image) (quality : Nat) (exif : Option Exif)
deriving DecidableEq

/-- Oracle for the effectful library calls of one `convert_image` call:
the working directory, the clock, and the result of each fallible call
(`error` carries the `str(e)` of the raised exception). -/
structure ConvertEnv where
  cwd : String
  now : Timestamp
  mkdirErr : Option String
  decodeRes : Except String Image
  exifRes : Except String Exif
  saveErr : Option String

/-- Lines 84-91: the output-directory resolution.  Returns the
directory to write into and whether the mirroring branch was taken
(in which case the source calls `os.makedirs` on it). -/
def resolveOutputDir (cwd heif_path output_dir : String) (preserve_structure : Bool) :
    String × Bool :=
  if preserve_structure && isabs heif_path then
    let rel_path := dirname heif_path
    if !(strStartsWith rel_path output_dir) then
      let rel := relpath cwd (dirname heif_path) (dirname output_dir)
      (joinPath output_dir rel, true)
    else (output_dir, false)
  else (output_dir, false)

/-- Python truthiness of the `rename_pattern` argument. -/
def patternTruthy : Option String → Bool
  | none => false
  | some s => !(s == "")

/-- Lines 101-103: the three placeholder substitutions, in source
order, with the constant counter value `1`. -/
def substitutePattern (pat name timestamp : String) : String :=
  strReplace (strReplace (strReplace pat "{name}" name) "{timestamp}" timestamp)
    "{counter}" "1"

/-- Lines 94-103: the output base name -- the source base name with its
extension stripped, run through the placeholder substitution when a
rename pattern is present (Python truthiness). -/
def outputStem (env : ConvertEnv) (heif_path : String) (rename_pattern : Option String) :
    String :=
  if patternTruthy rename_pattern then
    substitutePattern (rename_pattern.getD "") (splitext (basename heif_path)).1
      (formatTimestamp env.now)
  else (splitext (basename heif_path)).1

/-- Python truthiness of the extracted EXIF value. -/
def exifTruthy : Option Exif → Bool
  | none => false
  | some l => !l.isEmpty

/-- Lines 119-124: the colour-mode normalisation.  For the two alpha
modes the source pastes onto a white background using band 3 of
`split()` as the mask; an `LA` image has only two bands, so the
subscript raises `IndexError` with message `tuple index out of range`. -/
def flattenOrConvert (im : Image) : Except String Image :=
  match im.mode with
  | .RGBA | .LA =>
    let background := Image.newRGB im.size (255, 255, 255)
    match im.split[3]? with
    | none => .error "tuple index out of range"
    | some band => .ok (Image.pasteMask background im band)
  | _ => .ok im.convertRGB

/-- `ImageConverter.convert_image` (lines 78-136).  The whole body runs
under one `try`; every raised exception is returned as
`Failure (str e)`.  The returned list is the filesystem trace. -/
def convert_image (env : ConvertEnv) (heif_path output_dir : String) (quality : Nat)
    (preserve_structure keep_exif : Bool) (rename_pattern : Option String) :
    ConversionOutcome × List FsAction :=
  let resolved := resolveOutputDir env.cwd heif_path output_dir preserve_structure
  match (if resolved.2 then env.mkdirErr else none) with
  | some e => (.Failure e, [])
  | none =>
    let trace0 : List FsAction := if resolved.2 then [.makedirs resolved.1] else []
    let name := outputStem env heif_path rename_pattern
    let jpeg_path := joinPath resolved.1 (name ++ ".jpg")
    match env.decodeRes with
    | .error e => (.Failure e, trace0)
    | .ok heif_image =>
      let exif_data : Option Exif :=
        if keep_exif then
          match env.exifRes with
          | .ok x => some x
          | .error _ => none
        else none
      match flattenOrConvert heif_image with
      | .error e => (.Failure e, trace0)
      | .ok final_image =>
        match env.saveErr with
        | some e => (.Failure e, trace0)
        | none =>
          let attach := exifTruthy exif_data && keep_exif
          (.Success jpeg_path,
            trace0 ++ [.save jpeg_path final_image quality
                        (if attach then exif_data else none)])

/-- `os.makedirs` with exist_ok on a filesystem modelled as the list of
existing directories: creating an existing directory is a no-op. -/
def mkdirsFS (fs : List String) (path : String) : List String :=
  if fs.contains path then fs else path :: fs

/-- The directory the mirroring branch rebases the source directory to:
the source directory taken relative to the parent of the output root,
re-joined under the output root. -/
def rebasedOutputDir (cwd heif_path output_dir : String) : String :=
  joinPath output_dir (relpath cwd (dirname heif_path) (dirname output_dir))

/- ------------------------------------------------------------------ -/
/- The filesystem enumerator: ImageConverter.find_heif_files (62-76)   -/
/- ------------------------------------------------------------------ -/

/-- A directory tree: the regular files in the directory and its named
subdirectories. -/
inductive DirTree where
  | mk (files : List String) (subs : List (String × DirTree))

/-- The regular files of the directory itself. -/
def DirTree.files : DirTree → List String
  | .mk fs _ => fs

/-- The named subdirectories of the directory itself. -/
def DirTree.subs : DirTree → List (String × DirTree)
  | .mk _ ss => ss

/-- All directory entries, as `glob` sees them: regular files and
subdirectory names alike. -/
def DirTree.entries (t : DirTree) : List String := t.files ++ t.subs.map Prod.fst

mutual
/-- `os.walk(path)` top-down: the directory itself, then each
subdirectory's walk in order. -/
def walk (path : String) : DirTree → List (String × DirTree)
  | .mk fs subs => (path, .mk fs subs) :: walkSubs path subs

/-- Walks of a list of named subdirectories, concatenated in order. -/
def walkSubs (path : String) : List (String × DirTree) → List (String × DirTree)
  | [] => []
  | (nm, t) :: rest => walk (joinPath path nm) t ++ walkSubs path rest
end

/-- `fnmatch` for the only pattern shape the program uses, a `*`
followed by a literal suffix; `glob`'s rule that `*` never matches a
leading dot is included.  Other patterns are compared literally. -/
def globMatch (pat name : String) : Bool :=
  match pat.data with
  | '*' :: suffix => !(strStartsWith name ".") && suffix.isSuffixOf name.data
  | _ => pat == name

/-- `glob.glob(os.path.join(dirpath, pat))` over the entries of one
directory: the matching entries, joined onto the directory path. -/
def globDir (dirpath : String) (entries : List String) (pat : String) : List String :=
  (entries.filter (fun nm => globMatch pat nm)).map (fun nm => joinPath dirpath nm)

/-- The pattern list of line 66. -/
def extensions : List String := ["*.heif", "*.heic", "*.hif", "*.HEIF", "*.HEIC", "*.HIF"]

/-- `ImageConverter.find_heif_files` (lines 62-76): glob each pattern
in the root directory, or in the root and every walked subdirectory
when `include_subdirs` is set. -/
def find_heif_files (directory : String) (t : DirTree) (include_subdirs : Bool) :
    List String :=
  if include_subdirs then
    (walk directory t).flatMap (fun rt => extensions.flatMap (fun pat => globDir rt.1 rt.2.entries pat))
  else
    extensions.flatMap (fun pat => globDir directory t.entries pat)

/-- The matching the program actually performs on an entry name: not a
hidden file, and ending in one of the six literal suffixes (exact
case). -/
def matchesSourceExtension (name : String) : Bool :=
  !(strStartsWith name ".") &&
    ([".heif", ".heic", ".hif", ".HEIF", ".HEIC", ".HIF"].any (fun suf => strEndsWith name suf))

/-- The spec's wording of the extension filter: a case-insensitive
match of the extension against the recognised list. -/
def extMatchesCaseInsensitive (name : String) : Bool :=
  [".heif", ".heic", ".hif"].any (fun suf =>
    suf.data.isSuffixOf (name.data.map Char.toLower))

/- ------------------------------------------------------------------ -/
/- The batch scheduler: conversion_thread and friends (1155-1234)      -/
/- ------------------------------------------------------------------ -/

/-- One progress callback (`update_progress`, lines 1211-1215):
`current` and `total` are the arguments posted at line 1201; the last
two fields record the thread-local success and error counters at the
moment the callback is posted. -/
structure ProgressEvent where
  current : Nat
  total : Nat
  file : String
  succSoFar : Nat
  errSoFar : Nat
deriving DecidableEq

/-- The final summary handed to `conversion_complete` (lines
1217-1234), together with the cancellation flag it reads. -/
structure BatchSummary where
  total : Nat
  succeeded : Nat
  failed : Nat
  cancelled : Bool
deriving DecidableEq

/-- Result of the harvesting loop: final counters, the posted progress
events, the indices harvested, and the indices of the futures cancelled
by `shutdown(cancel_futures)` when the stop flag was observed. -/
structure HarvestResult where
  succ : Nat
  err : Nat
  events : List ProgressEvent
  harvested : List Nat
  skipped : List Nat
deriving DecidableEq

/-- Whether the (monotone) stop flag is seen at iteration `i`:
`stopAt` is the first iteration at which the flag is observable,
`none` when it is never set. -/
def stopObserved : Option Nat → Nat → Bool
  | none, _ => false
  | some k, i => decide (k ≤ i)

/-- Lines 1189-1198: exactly one of the two counters is incremented per
harvested future -- success on `(True, path)`, error on `(False, msg)`
and on a raised exception. -/
def countStep (res : Except String ConversionOutcome) (s e : Nat) : Nat × Nat :=
  match res with
  | .ok (.Success _) => (s + 1, e)
  | .ok (.Failure _) => (s, e + 1)
  | .error _ => (s, e + 1)

/-- The harvest loop of `conversion_thread` (lines 1178-1201): before
each future the stop flag is checked; on observation the loop breaks
and the remaining futures are cancelled, otherwise the future's result
is counted and a progress callback is posted. -/
def harvestLoop (stopAt : Option Nat) (total : Nat) :
    List (String × Except String ConversionOutcome) → Nat → Nat → Nat → HarvestResult
  | [], _, s, e => ⟨s, e, [], [], []⟩
  | (file, res) :: rest, i, s, e =>
    if stopObserved stopAt i then
      ⟨s, e, [], [], List.range' i (rest.length + 1)⟩
    else
      let se := countStep res s e
      let r := harvestLoop stopAt total rest (i + 1) se.1 se.2
      ⟨r.succ, r.err, ⟨i + 1, total, file, se.1, se.2⟩ :: r.events,
        i :: r.harvested, r.skipped⟩

/-- Everything `conversion_thread` produces: the summary posted to
`conversion_complete`, the progress events, and which requests were
harvested versus skipped by cancellation. -/
structure ThreadResult where
  summary : BatchSummary
  events : List ProgressEvent
  harvested : List Nat
  skipped : List Nat
deriving DecidableEq

/-- `conversion_thread` (lines 1155-1204): futures are harvested in
submission order over the file list; `results` gives each future's
outcome (`error` models a raised exception at line 1196).  The
`cancelled` field is the stop flag as `conversion_complete` reads it at
line 1222. -/
def conversion_thread (files : List String) (results : List (Except String ConversionOutcome))
    (stopAt : Option Nat) : ThreadResult :=
  let total := files.length
  let r := harvestLoop stopAt total (files.zip results) 0 0 0
  ⟨⟨total, r.succ, r.err, stopAt.isSome⟩, r.events, r.harvested, r.skipped⟩

/- ------------------------------------------------------------------ -/
/- The UI control surface: start_conversion (lines 1116-1153)          -/
/- ------------------------------------------------------------------ -/

/-- The application state `start_conversion` reads and writes. -/
structure AppState where
  conversion_running : Bool
  file_list : List String
  input_dir : String
  output_dir : String
  quality : Nat
  preserve_exif : Bool
  include_subdirs : Bool
  preserve_structure : Bool
  rename_pattern : String
  max_workers : Nat
  stop_requested : Bool
  progress_value : Nat
  progress_maximum : Nat
  convert_btn_enabled : Bool
deriving DecidableEq

/-- Lines 1141-1146: the state mutations performed when a run starts. -/
def beginRunState (s : AppState) : AppState :=
  { s with conversion_running := true, convert_btn_enabled := false,
           progress_maximum := s.file_list.length, progress_value := 0,
           stop_requested := false }

/-- `start_conversion` (lines 1116-1153): rejected while already
running or with an empty file list; an empty output directory falls
back to the input directory; a missing output directory is created,
aborting on failure.  Returns the new state and whether a conversion
thread was started. -/
def start_conversion (dirExists : String → Bool) (mkdirOk : Bool) (s : AppState) :
    AppState × Bool :=
  if s.conversion_running then (s, false)
  else if s.file_list.isEmpty then (s, false)
  else
    let od0 := s.output_dir
    let od := if od0 == "" then s.input_dir else od0
    let s1 := if od0 == "" then { s with output_dir := s.input_dir } else s
    if dirExists od then (beginRunState s1, true)
    else if mkdirOk then (beginRunState s1, true)
    else (s1, false)

/- ------------------------------------------------------------------ -/
/- Concrete fixtures                                                   -/
/- ------------------------------------------------------------------ -/

/-- A fixed clock instant used by the concrete runs. -/
def ts0 : Timestamp := ⟨2024, 1, 2, 3, 4, 5⟩

/-- A one-pixel RGB image. -/
def rgbImg : Image := ⟨.RGB, (1, 1), [[1, 2, 3]]⟩

/-- A one-pixel grey-plus-alpha image whose pixel is fully
transparent. -/
def laImg : Image := ⟨.LA, (1, 1), [[120, 0]]⟩

/-- A one-pixel RGBA image whose pixel is fully transparent. -/
def rgbaImg : Image := ⟨.RGBA, (1, 1), [[10, 20, 30, 0]]⟩

/-- Oracle for a run that fails to decode. -/
def envDecodeFail : ConvertEnv := ⟨"/", ts0, none, .error "bad file", .ok [], none⟩

/-- Oracle for a clean run on the RGB image. -/
def envRgb : ConvertEnv := ⟨"/", ts0, none, .ok rgbImg, .ok [], none⟩

/-- Oracle for a clean run on the transparent LA image. -/
def envLa : ConvertEnv := ⟨"/", ts0, none, .ok laImg, .ok [], none⟩

/-- Oracle for a clean run on the transparent RGBA image. -/
def envRgba : ConvertEnv := ⟨"/", ts0, none, .ok rgbaImg, .ok [], none⟩

/-- Oracle for a run whose metadata read raises. -/
def envExifFail : ConvertEnv := ⟨"/", ts0, none, .ok rgbImg, .error "boom", none⟩

/-- Oracle for the sibling-directory runs of the resolver claims. -/
def envSibling : ConvertEnv := ⟨"/", ts0, none, .ok rgbImg, .ok [], none⟩

/-- Oracle for the rename-pattern run. -/
def envRename : ConvertEnv := ⟨"/", ts0, none, .ok rgbImg, .ok [], none⟩

/-- Oracle for the directory-mirroring run. -/
def envMirror : ConvertEnv := ⟨"/", ts0, none, .ok rgbImg, .ok [], none⟩

/- ------------------------------------------------------------------ -/
/- Helper lemmas                                                       -/
/- ------------------------------------------------------------------ -/

/-- The colour-mode normalisation succeeds on every modelled mode
except `LA`; only the `LA` branch hits the out-of-range band index. -/
theorem flattenOrConvert_ok (im : Image) (h : im.mode ≠ .LA) :
    ∃ fi, flattenOrConvert im = .ok fi := by
  rcases hm : im.mode with _ | _ | _ | _
  · exact ⟨im.convertRGB, by simp [flattenOrConvert, hm]⟩
  · have hsplit : im.split[3]?
        = some { mode := .L, size := im.size,
                 pixels := im.pixels.map (fun p => [p.getD 3 0]) } := by
      simp [Image.split, hm, Mode.bands]
    exact ⟨Image.pasteMask (Image.newRGB im.size (255, 255, 255)) im
      { mode := .L, size := im.size, pixels := im.pixels.map (fun p => [p.getD 3 0]) },
      by simp [flattenOrConvert, hm, hsplit]⟩
  · exact absurd hm h
  · exact ⟨im.convertRGB, by simp [flattenOrConvert, hm]⟩

/-- Exactly one counter is incremented per harvested future. -/
theorem countStep_sum (res : Except String ConversionOutcome) (s e : Nat) :
    (countStep res s e).1 + (countStep res s e).2 = s + e + 1 := by
  rcases res with m | o
  · rfl
  · cases o <;> simp [countStep] <;> omega

/-- Invariants of the harvest loop, by induction on the remaining
futures: the harvested indices form the contiguous run starting at the
loop index, each harvested future moves exactly one counter, harvested
and skipped indices partition the remaining run, every posted progress
event satisfies the counter identity and the bound by the total, and
with a stop flag the harvested run is cut at the stop index. -/
theorem harvestLoop_spec (stopAt : Option Nat) (total : Nat) :
    ∀ (l : List (String × Except String ConversionOutcome)) (i s e : Nat),
      i + l.length = total → s + e = i →
      ((harvestLoop stopAt total l i s e).harvested
          = List.range' i (harvestLoop stopAt total l i s e).harvested.length
        ∧ (harvestLoop stopAt total l i s e).succ + (harvestLoop stopAt total l i s e).err
          = i + (harvestLoop stopAt total l i s e).harvested.length
        ∧ (harvestLoop stopAt total l i s e).harvested ++ (harvestLoop stopAt total l i s e).skipped
          = List.range' i l.length
        ∧ (∀ ev ∈ (harvestLoop stopAt total l i s e).events,
            ev.current = ev.succSoFar + ev.errSoFar ∧ ev.current ≤ total ∧ ev.total = total)
        ∧ (∀ k, stopAt = some k →
            (harvestLoop stopAt total l i s e).harvested.length = min (k - i) l.length)) := by
  intro l
  induction l with
  | nil =>
    intro i s e hi hse
    refine ⟨rfl, by simp [harvestLoop, hse], rfl, by simp [harvestLoop], ?_⟩
    intro k hk
    simp [harvestLoop]
  | cons hd rest ih =>
    obtain ⟨file, res⟩ := hd
    intro i s e hi hse
    cases hstop : stopObserved stopAt i with
    | true =>
      simp only [harvestLoop, hstop, if_true]
      refine ⟨by simp, by simp [hse], by simp, by simp, ?_⟩
      intro k hk
      subst hk
      simp only [stopObserved, decide_eq_true_eq] at hstop
      simp
      omega
    | false =>
      have hsum : (countStep res s e).1 + (countStep res s e).2 = i + 1 := by
        rw [countStep_sum]; omega
      obtain ⟨ih1, ih2, ih3, ih4, ih5⟩ :=
        ih (i + 1) (countStep res s e).1 (countStep res s e).2 (by simp at hi ⊢; omega) hsum
      simp only [harvestLoop, hstop, if_false, Bool.false_eq_true]
      refine ⟨?_, ?_, ?_, ?_, ?_⟩
      · simp only [List.length_cons, List.range'_succ]
        exact congrArg (i :: ·) ih1
      · simp only [List.length_cons]
        omega
      · simp only [List.cons_append, List.length_cons, List.range'_succ]
        exact congrArg (i :: ·) ih3
      · intro ev hev
        simp only [List.mem_cons] at hev
        rcases hev with rfl | hev
        · refine ⟨hsum.symm, by simp at hi ⊢; omega, rfl⟩
        · exact ih4 ev hev
      · intro k hk
        have hki : ¬ k ≤ i := by
          subst hk
          simpa [stopObserved] using hstop
        have := ih5 k hk
        simp only [List.length_cons]
        omega

/-- Each of the six glob patterns matches a name exactly when the name
is not hidden and carries that pattern's literal suffix; together they
match exactly `matchesSourceExtension`. -/
theorem globMatch_extensions (nm : String) :
    extensions.any (fun pat => globMatch pat nm) = matchesSourceExtension nm := by
  have h1 : globMatch "*.heif" nm = (!(strStartsWith nm ".") && strEndsWith nm ".heif") := rfl
  have h2 : globMatch "*.heic" nm = (!(strStartsWith nm ".") && strEndsWith nm ".heic") := rfl
  have h3 : globMatch "*.hif" nm = (!(strStartsWith nm ".") && strEndsWith nm ".hif") := rfl
  have h4 : globMatch "*.HEIF" nm = (!(strStartsWith nm ".") && strEndsWith nm ".HEIF") := rfl
  have h5 : globMatch "*.HEIC" nm = (!(strStartsWith nm ".") && strEndsWith nm ".HEIC") := rfl
  have h6 : globMatch "*.HIF" nm = (!(strStartsWith nm ".") && strEndsWith nm ".HIF") := rfl
  simp only [extensions, List.any_cons, List.any_nil, h1, h2, h3, h4, h5, h6,
    matchesSourceExtension]
  cases h : strStartsWith nm "." <;> simp

/-- Membership in one directory's glob results: exactly the entries
matching one of the six patterns, joined onto the directory path. -/
theorem mem_extGlob (r : String) (es : List String) (p : String) :
    p ∈ extensions.flatMap (fun pat => globDir r es pat) ↔
      ∃ nm, nm ∈ es ∧ matchesSourceExtension nm = true ∧ p = joinPath r nm := by
  simp only [List.mem_flatMap, globDir, List.mem_map, List.mem_filter]
  constructor
  · rintro ⟨pat, hpat, nm, ⟨hnm, hmatch⟩, rfl⟩
    refine ⟨nm, hnm, ?_, rfl⟩
    have hany : extensions.any (fun pat => globMatch pat nm) = true :=
      List.any_eq_true.mpr ⟨pat, hpat, hmatch⟩
    rwa [globMatch_extensions] at hany
  · rintro ⟨nm, hnm, hm, rfl⟩
    have hany : extensions.any (fun pat => globMatch pat nm) = true := by
      rw [globMatch_extensions]; exact hm
    obtain ⟨pat, hpat, hmatch⟩ := List.any_eq_true.mp hany
    exact ⟨pat, hpat, nm, ⟨hnm, hmatch⟩, rfl⟩

/- ------------------------------------------------------------------ -/
/- Claim theorems                                                      -/
/- ------------------------------------------------------------------ -/

/-- C1: for every conversion request, a decode or encode failure inside
`convert_image` is captured and returned as a `Failure` outcome carrying
the error's message string, and `convert_image` always returns an
outcome -- it never propagates an exception to its caller. -/
theorem convert_image_captures_errors (env : ConvertEnv)
    (heif_path output_dir : String) (quality : Nat)
    (preserve_structure keep_exif : Bool) (rename_pattern : Option String)
    (hmk : env.mkdirErr = none) :
    (∀ m, env.decodeRes = .error m →
      (convert_image env heif_path output_dir quality preserve_structure keep_exif
          rename_pattern).1 = .Failure m)
    ∧ (∀ img m, env.decodeRes = .ok img → img.mode ≠ .LA → env.saveErr = some m →
      (convert_image env heif_path output_dir quality preserve_structure keep_exif
          rename_pattern).1 = .Failure m)
    ∧ ((∃ p, (convert_image env heif_path output_dir quality preserve_structure keep_exif
          rename_pattern).1 = .Success p)
        ∨ (∃ m, (convert_image env heif_path output_dir quality preserve_structure keep_exif
          rename_pattern).1 = .Failure m)) := by
  refine ⟨?_, ?_, ?_⟩
  · intro m hm
    simp [convert_image, hmk, hm, ite_self]
  · intro img m hdec hmode hsave
    obtain ⟨fi, hfi⟩ := flattenOrConvert_ok img hmode
    simp [convert_image, hmk, hdec, hfi, hsave, ite_self]
  · cases hc : (convert_image env heif_path output_dir quality preserve_structure keep_exif
        rename_pattern).1 with
    | Success p => exact Or.inl ⟨p, rfl⟩
    | Failure m => exact Or.inr ⟨m, rfl⟩

/-- Witness for C1 at a concrete failing decode. -/
theorem convert_image_captures_errors_witness :
    (convert_image envDecodeFail "/a/pic.heic" "/o" 90 false true none).1
      = .Failure "bad file" :=
  (convert_image_captures_errors envDecodeFail "/a/pic.heic" "/o" 90 false true none
    rfl).1 "bad file" rfl

/-- C2 counterexample: with output root `/out` and source directory
`/out2/sub` -- a sibling that is not inside the output root -- the
resolver creates no mirrored directory at all and writes straight into
the output root, because its containment test is a string-prefix
comparison; the claim's premise holds but its conclusion fails. -/
theorem resolver_under_counterexample :
    dirname "/out2/sub/img.heic" = "/out2/sub"
    ∧ "/out2/sub" ≠ "/out"
    ∧ strStartsWith "/out2/sub" "/out/" = false
    ∧ (convert_image envSibling "/out2/sub/img.heic" "/out" 90 true false none).2
        = [FsAction.save "/out/img.jpg" rgbImg 90 none]
    ∧ (convert_image envSibling "/out2/sub/img.heic" "/out" 90 true false none).1
        = .Success "/out/img.jpg" := by
  exact ⟨rfl, by decide, rfl, rfl, rfl⟩

/-- C2 (amended): for every request with preserve_structure set whose
source path is absolute and whose source directory does not have the
output root as a string prefix, the resolver rebases the source
directory -- taken relative to the parent of the output root -- under
the output root, the first filesystem action creates exactly that
directory (directory creation being idempotent, safe to repeat), and a
successful run writes its single output file inside that directory,
after the creation. -/
theorem resolver_rebase_mkdir_before_write (env : ConvertEnv)
    (heif_path output_dir : String) (quality : Nat) (keep_exif : Bool)
    (rename_pattern : Option String)
    (habs : isabs heif_path = true)
    (hpre : strStartsWith (dirname heif_path) output_dir = false)
    (hmk : env.mkdirErr = none) :
    (convert_image env heif_path output_dir quality true keep_exif rename_pattern).2.head?
        = some (.makedirs (rebasedOutputDir env.cwd heif_path output_dir))
    ∧ (∀ p, (convert_image env heif_path output_dir quality true keep_exif
          rename_pattern).1 = .Success p →
        ∃ im q ex nm,
          (convert_image env heif_path output_dir quality true keep_exif rename_pattern).2
            = [.makedirs (rebasedOutputDir env.cwd heif_path output_dir),
               .save p im q ex]
          ∧ p = joinPath (rebasedOutputDir env.cwd heif_path output_dir) nm)
    ∧ (∀ fs, mkdirsFS (mkdirsFS fs (rebasedOutputDir env.cwd heif_path output_dir))
          (rebasedOutputDir env.cwd heif_path output_dir)
        = mkdirsFS fs (rebasedOutputDir env.cwd heif_path output_dir)) := by
  have hres : resolveOutputDir env.cwd heif_path output_dir true
      = (rebasedOutputDir env.cwd heif_path output_dir, true) := by
    simp [resolveOutputDir, habs, hpre, rebasedOutputDir]
  refine ⟨?_, ?_, ?_⟩
  · rcases hdec : env.decodeRes with m | img
    · simp [convert_image, hres, hmk, hdec]
    · rcases hflat : flattenOrConvert img with e | fi
      · simp [convert_image, hres, hmk, hdec, hflat]
      · rcases hsave : env.saveErr with _ | e2
        · simp [convert_image, hres, hmk, hdec, hflat, hsave]
        · simp [convert_image, hres, hmk, hdec, hflat, hsave]
  · intro p hp
    rcases hdec : env.decodeRes with m | img
    · simp [convert_image, hres, hmk, hdec] at hp
    · rcases hflat : flattenOrConvert img with e | fi
      · simp [convert_image, hres, hmk, hdec, hflat] at hp
      · rcases hsave : env.saveErr with _ | e2
        · have hp2 : joinPath (rebasedOutputDir env.cwd heif_path output_dir)
              (outputStem env heif_path rename_pattern ++ ".jpg") = p := by
            simpa [convert_image, hres, hmk, hdec, hflat, hsave] using hp
          refine ⟨fi, quality,
            (if exifTruthy (if keep_exif then
                match env.exifRes with
                | .ok x => some x
                | .error _ => none
              else none) && keep_exif then
              (if keep_exif then
                match env.exifRes with
                | .ok x => some x
                | .error _ => none
              else none) else none),
            outputStem env heif_path rename_pattern ++ ".jpg", ?_, hp2.symm⟩
          simp [convert_image, hres, hmk, hdec, hflat, hsave, ← hp2]
        · simp [convert_image, hres, hmk, hdec, hflat, hsave] at hp
  · intro fs
    by_cases h : rebasedOutputDir env.cwd heif_path output_dir ∈ fs
    · simp [mkdirsFS, h]
    · simp [mkdirsFS, h]

/-- Witness for the amended C2 on a concrete mirrored run. -/
theorem resolver_rebase_mkdir_before_write_witness :
    isabs "/data/photos/img.heic" = true
    ∧ strStartsWith (dirname "/data/photos/img.heic") "/out" = false
    ∧ (convert_image envMirror "/data/photos/img.heic" "/out" 90 true false none).2.head?
        = some (.makedirs (rebasedOutputDir "/" "/data/photos/img.heic" "/out")) :=
  ⟨rfl, rfl,
    (resolver_rebase_mkdir_before_write envMirror "/data/photos/img.heic" "/out" 90
      false none rfl rfl rfl).1⟩

/-- C3: with a rename pattern present the output base name is the
pattern with every occurrence of the `{name}`, `{timestamp}` and
`{counter}` placeholders substituted, in source order -- the timestamp
in `YYYYMMDD_HHMMSS` format and the counter the constant string `1`,
never incremented -- and the final output path is the resolved
directory joined with the substituted name plus the fixed `.jpg`
extension. -/
theorem rename_pattern_substitution (env : ConvertEnv)
    (heif_path output_dir : String) (quality : Nat)
    (preserve_structure keep_exif : Bool) (pat : String)
    (hne : (pat == "") = false) :
    (∀ nm ts, substitutePattern pat nm ts
        = strReplace (strReplace (strReplace pat "{name}" nm) "{timestamp}" ts)
            "{counter}" "1")
    ∧ (∀ p, (convert_image env heif_path output_dir quality preserve_structure keep_exif
          (some pat)).1 = .Success p →
        p = joinPath (resolveOutputDir env.cwd heif_path output_dir preserve_structure).1
            (substitutePattern pat (splitext (basename heif_path)).1
              (formatTimestamp env.now) ++ ".jpg")) := by
  have hstem : outputStem env heif_path (some pat)
      = substitutePattern pat (splitext (basename heif_path)).1 (formatTimestamp env.now) := by
    simp [outputStem, patternTruthy, hne]
  refine ⟨fun nm ts => rfl, ?_⟩
  intro p hp
  rcases hmkd : (if (resolveOutputDir env.cwd heif_path output_dir preserve_structure).2
      then env.mkdirErr else none) with _ | e
  · rcases hdec : env.decodeRes with m | img
    · simp [convert_image, hmkd, hdec] at hp
    · rcases hflat : flattenOrConvert img with e | fi
      · simp [convert_image, hmkd, hdec, hflat] at hp
      · rcases hsave : env.saveErr with _ | e2
        · have := hp
          simp [convert_image, hmkd, hdec, hflat, hsave, hstem] at this
          exact this.symm
        · simp [convert_image, hmkd, hdec, hflat, hsave] at hp
  · simp [convert_image, hmkd] at hp

/-- Witness for C3 on a concrete pattern using all three placeholders. -/
theorem rename_pattern_substitution_witness :
    (("IMG_{name}_{timestamp}_{counter}" == "") = false)
    ∧ (convert_image envRename "/a/pic.heic" "/o" 90 false false
        (some "IMG_{name}_{timestamp}_{counter}")).1
        = .Success "/o/IMG_pic_20240102_030405_1.jpg"
    ∧ "/o/IMG_pic_20240102_030405_1.jpg"
        = joinPath (resolveOutputDir "/" "/a/pic.heic" "/o" false).1
            (substitutePattern "IMG_{name}_{timestamp}_{counter}"
              (splitext (basename "/a/pic.heic")).1 (formatTimestamp ts0) ++ ".jpg") :=
  ⟨rfl, rfl,
    (rename_pattern_substitution envRename "/a/pic.heic" "/o" 90 false false
      "IMG_{name}_{timestamp}_{counter}" rfl).2 "/o/IMG_pic_20240102_030405_1.jpg" rfl⟩

/-- C4: the claim fails on the code for `LA` sources: the flattening
branch reads band 3 of `split()`, but an `LA` image has two bands, so a
transparent `LA` source yields `Failure "tuple index out of range"`
instead of a flattened opaque success; for `RGBA` sources the
flatten-onto-white behaviour does hold and produces an opaque image. -/
theorem la_alpha_flatten_divergence :
    laImg.hasAlphaChannel = true ∧ laImg.hasTransparentPixel = true
    ∧ (convert_image envLa "/a/t.heic" "/o" 90 false false none).1
        = .Failure "tuple index out of range"
    ∧ rgbaImg.hasAlphaChannel = true ∧ rgbaImg.hasTransparentPixel = true
    ∧ (convert_image envRgba "/a/t.heic" "/o" 90 false false none)
        = (.Success "/o/t.jpg",
           [FsAction.save "/o/t.jpg" ⟨.RGB, (1, 1), [[255, 255, 255]]⟩ 90 none])
    ∧ Image.isOpaque ⟨.RGB, (1, 1), [[255, 255, 255]]⟩ = true :=
  ⟨rfl, rfl, rfl, rfl, rfl, rfl, rfl⟩

/-- C5: when the stop flag is observed before any future is harvested
the summary reports zero succeeded (and zero failed) and is marked
cancelled; in general only the requests before the stop index are ever
dispatched, every later request is skipped by the cancellation, and
skipped requests contribute to neither counter. -/
theorem cancel_before_start_zero_succeeded (files : List String)
    (results : List (Except String ConversionOutcome)) (k : Nat)
    (hlen : results.length = files.length) :
    (conversion_thread files results (some k)).summary.cancelled = true
    ∧ (k = 0 → (conversion_thread files results (some k)).summary.succeeded = 0
        ∧ (conversion_thread files results (some k)).summary.failed = 0)
    ∧ (conversion_thread files results (some k)).harvested
        = List.range (min k files.length)
    ∧ (conversion_thread files results (some k)).harvested
        ++ (conversion_thread files results (some k)).skipped
        = List.range files.length
    ∧ (conversion_thread files results (some k)).summary.succeeded
        + (conversion_thread files results (some k)).summary.failed
        = (conversion_thread files results (some k)).harvested.length := by
  have hzip : (files.zip results).length = files.length := by
    rw [List.length_zip, hlen, Nat.min_self]
  obtain ⟨h1, h2, h3, h4, h5⟩ :=
    harvestLoop_spec (some k) files.length (files.zip results) 0 0 0 (by omega) rfl
  have hlen' : (harvestLoop (some k) files.length (files.zip results) 0 0 0).harvested.length
      = min k files.length := by
    rw [h5 k rfl, hzip, Nat.sub_zero]
  refine ⟨?_, ?_, ?_, ?_, ?_⟩
  · simp [conversion_thread]
  · intro hk
    subst hk
    have : (harvestLoop (some 0) files.length (files.zip results) 0 0 0).succ
        + (harvestLoop (some 0) files.length (files.zip results) 0 0 0).err = 0 := by
      rw [h2, hlen']
      omega
    constructor
    · simp only [conversion_thread]
      omega
    · simp only [conversion_thread]
      omega
  · simp only [conversion_thread]
    rw [h1, hlen', List.range_eq_range']
  · simp only [conversion_thread]
    rw [h3, hzip, List.range_eq_range']
  · simp only [conversion_thread]
    omega

/-- Witness for C5: a two-file batch cancelled before any harvest. -/
theorem cancel_before_start_zero_succeeded_witness :
    (conversion_thread ["a", "b"] [.ok (.Success "x"), .ok (.Failure "y")]
        (some 0)).summary.succeeded = 0
    ∧ (conversion_thread ["a", "b"] [.ok (.Success "x"), .ok (.Failure "y")]
        (some 0)).summary.cancelled = true :=
  ⟨((cancel_before_start_zero_succeeded ["a", "b"]
      [.ok (.Success "x"), .ok (.Failure "y")] 0 rfl).2.1 rfl).1,
   (cancel_before_start_zero_succeeded ["a", "b"]
      [.ok (.Success "x"), .ok (.Failure "y")] 0 rfl).1⟩

/-- C6: at every progress observation point the completed count equals
succeeded plus failed and never exceeds the total, and at finalisation
succeeded plus failed plus the requests skipped by cancellation equals
the number of submitted requests. -/
theorem batch_counter_invariants (files : List String)
    (results : List (Except String ConversionOutcome)) (stopAt : Option Nat)
    (hlen : results.length = files.length) :
    (∀ ev ∈ (conversion_thread files results stopAt).events,
        ev.current = ev.succSoFar + ev.errSoFar
        ∧ ev.current ≤ (conversion_thread files results stopAt).summary.total)
    ∧ (conversion_thread files results stopAt).summary.succeeded
        + (conversion_thread files results stopAt).summary.failed
        + (conversion_thread files results stopAt).skipped.length
        = files.length := by
  have hzip : (files.zip results).length = files.length := by
    rw [List.length_zip, hlen, Nat.min_self]
  obtain ⟨h1, h2, h3, h4, h5⟩ :=
    harvestLoop_spec stopAt files.length (files.zip results) 0 0 0 (by omega) rfl
  constructor
  · intro ev hev
    obtain ⟨e1, e2, e3⟩ := h4 ev (by simpa [conversion_thread] using hev)
    exact ⟨e1, by simpa [conversion_thread] using e2⟩
  · have hparts : (harvestLoop stopAt files.length (files.zip results) 0 0 0).harvested.length
        + (harvestLoop stopAt files.length (files.zip results) 0 0 0).skipped.length
        = files.length := by
      have := congrArg List.length h3
      simpa [List.length_append, List.length_range', hzip] using this
    simp only [conversion_thread]
    omega

/-- Witness for C6: a three-file batch with one of each outcome kind. -/
theorem batch_counter_invariants_witness :
    (conversion_thread ["a", "b", "c"]
        [.ok (.Success "x"), .ok (.Failure "y"), .error "z"] none).summary.succeeded
      + (conversion_thread ["a", "b", "c"]
        [.ok (.Success "x"), .ok (.Failure "y"), .error "z"] none).summary.failed
      + (conversion_thread ["a", "b", "c"]
        [.ok (.Success "x"), .ok (.Failure "y"), .error "z"] none).skipped.length
      = 3 :=
  (batch_counter_invariants ["a", "b", "c"]
    [.ok (.Success "x"), .ok (.Failure "y"), .error "z"] none rfl).2

/-- C7: with metadata preservation requested, a failing metadata read
does not abort the conversion: the outcome is `Success` whenever the
remaining decode and encode steps succeed, and the file is encoded with
no metadata attached. -/
theorem metadata_failure_graceful (env : ConvertEnv)
    (heif_path output_dir : String) (quality : Nat) (preserve_structure : Bool)
    (rename_pattern : Option String) (m : String) (img : Image)
    (hmk : env.mkdirErr = none) (hex : env.exifRes = .error m)
    (hdec : env.decodeRes = .ok img) (hmode : img.mode ≠ .LA)
    (hsave : env.saveErr = none) :
    ∃ p fi,
      (convert_image env heif_path output_dir quality preserve_structure true
          rename_pattern).1 = .Success p
      ∧ FsAction.save p fi quality none
          ∈ (convert_image env heif_path output_dir quality preserve_structure true
              rename_pattern).2 := by
  obtain ⟨fi, hfi⟩ := flattenOrConvert_ok img hmode
  refine ⟨joinPath (resolveOutputDir env.cwd heif_path output_dir preserve_structure).1
      (outputStem env heif_path rename_pattern ++ ".jpg"), fi, ?_, ?_⟩
  · simp [convert_image, hmk, hdec, hfi, hsave, hex, ite_self]
  · simp [convert_image, hmk, hdec, hfi, hsave, hex, ite_self, exifTruthy]

/-- Witness for C7 at a concrete failing metadata read. -/
theorem metadata_failure_graceful_witness :
    envExifFail.exifRes = .error "boom"
    ∧ ∃ p fi, (convert_image envExifFail "/a/pic.heic" "/o" 85 false true none).1
        = .Success p
      ∧ FsAction.save p fi 85 none
          ∈ (convert_image envExifFail "/a/pic.heic" "/o" 85 false true none).2 :=
  ⟨rfl, metadata_failure_graceful envExifFail "/a/pic.heic" "/o" 85 false none "boom"
    rgbImg rfl rfl rfl (by decide) rfl⟩

/-- The application state of a run already in progress, for the C8
witness. -/
def runningState : AppState :=
  ⟨true, ["f.heic"], "/in", "/out", 90, true, false, true, "{name}", 4, false, 0, 1, false⟩

/-- C8: calling `start_conversion` while a conversion run is already in
progress is rejected with no state change: the state is returned
untouched and no conversion thread is started. -/
theorem start_rejected_while_running (dirExists : String → Bool) (mkdirOk : Bool)
    (s : AppState) (h : s.conversion_running = true) :
    start_conversion dirExists mkdirOk s = (s, false) := by
  simp [start_conversion, h]

/-- Witness for C8 on a concrete running state. -/
theorem start_rejected_while_running_witness :
    start_conversion (fun _ => true) true runningState = (runningState, false) :=
  start_rejected_while_running (fun _ => true) true runningState rfl

/-- C9 counterexample: `a.Heic` carries a case variant of the `heic`
extension, but glob matching is exact-case, so the enumerator misses
it; the claimed case-insensitive characterisation of the returned set
is false at this directory. -/
theorem find_heif_files_case_counterexample :
    ¬ (("d/a.Heic" ∈ find_heif_files "d" (DirTree.mk ["a.Heic"] []) false)
        ↔ extMatchesCaseInsensitive "a.Heic" = true) := by
  decide

/-- C9 (amended): the enumerator returns exactly the entries -- of the
root directory alone, or of the root and every directory of its walk
when the recursion flag is set -- whose name is not hidden and ends in
one of the six literal extension variants `heif`, `heic`, `hif`,
`HEIF`, `HEIC`, `HIF` (exact case: the all-lower and all-upper variants
only, so mixed-case variants are not matched), each joined onto its
directory's path. -/
theorem find_heif_files_characterization (directory : String) (t : DirTree)
    (include_subdirs : Bool) (p : String) :
    p ∈ find_heif_files directory t include_subdirs ↔
      ∃ rt : String × DirTree,
        rt ∈ (if include_subdirs then walk directory t else [(directory, t)])
        ∧ ∃ nm, nm ∈ rt.2.entries ∧ matchesSourceExtension nm = true
            ∧ p = joinPath rt.1 nm := by
  cases include_subdirs with
  | false =>
    rw [show find_heif_files directory t false
        = extensions.flatMap (fun pat => globDir directory t.entries pat) from rfl,
      mem_extGlob]
    constructor
    · rintro ⟨nm, h1, h2, h3⟩
      exact ⟨(directory, t), by simp, nm, h1, h2, h3⟩
    · rintro ⟨rt, hrt, nm, h1, h2, h3⟩
      simp at hrt
      subst hrt
      exact ⟨nm, h1, h2, h3⟩
  | true =>
    rw [show find_heif_files directory t true
        = (walk directory t).flatMap
            (fun rt => extensions.flatMap (fun pat => globDir rt.1 rt.2.entries pat)) from rfl,
      List.mem_flatMap]
    constructor
    · rintro ⟨rt, hrt, hp⟩
      rw [mem_extGlob] at hp
      obtain ⟨nm, h1, h2, h3⟩ := hp
      exact ⟨rt, by simpa using hrt, nm, h1, h2, h3⟩
    · rintro ⟨rt, hrt, nm, h1, h2, h3⟩
      refine ⟨rt, by simpa using hrt, ?_⟩
      rw [mem_extGlob]
      exact ⟨nm, h1, h2, h3⟩

/-- Oracle for the C10 sibling-directory run. -/
def envSibling2 : ConvertEnv := ⟨"/", ts0, none, .ok rgbImg, .ok [], none⟩

/-- C10: the resolver's containment test is a plain string-prefix
comparison on the source directory path: with output root `/out` and
source directory `/out2/sub` -- which merely begins with `/out` without
being inside that directory -- the source is treated as already under
the output root, no mirrored subdirectory is created, and the output is
written directly into the output root. -/
theorem prefix_test_collapses_sibling_dir :
    strStartsWith (dirname "/out2/sub/img.heic") "/out" = true
    ∧ "/out2/sub" ≠ "/out"
    ∧ strStartsWith "/out2/sub" "/out/" = false
    ∧ resolveOutputDir "/" "/out2/sub/img.heic" "/out" true = ("/out", false)
    ∧ (convert_image envSibling2 "/out2/sub/img.heic" "/out" 90 true false none)
        = (.Success "/out/img.jpg", [FsAction.save "/out/img.jpg" rgbImg 90 none]) :=
  ⟨rfl, by decide, rfl, rfl, rfl⟩
